import Mathlib

/-!
Shallow embedding of the Prompt-to-Album Matching Engine of
`src/core/matcher.py` (classes `PromptParser` and `PatternMatcher`), together
with theorems settling the specification claims about it.

Strings are handled as `List Char`; Python `re` scanning over the small
pattern fragment the source actually uses (literal alternatives, `\b`, `\s+`,
`\d{4}`, `\d{2}`, and `.*` arising from `'*'` replacement) is embedded as
explicit left-to-right scanners.  Python `int` is `Int`; Python `None` is
`Option.none`.
-/

namespace LazyLens

/-- Python `datetime` restricted to the fields the matcher reads
(`.year`, `.month`) plus enough structure (`day`) for the `<`/`>`
range comparisons of `match_date`. -/
structure PyDateTime where
  year : Int
  month : Int
  day : Int
deriving DecidableEq, Repr

/-- `datetime < datetime` comparison (lexicographic), used by the
`start_date`/`end_date` range checks of `match_date`. -/
def PyDateTime.lt (a b : PyDateTime) : Bool :=
  a.year < b.year ||
    (a.year = b.year && (a.month < b.month ||
      (a.month = b.month && a.day < b.day)))

/-- `DateFilter` dataclass (matcher.py lines 10-16): all four fields default
to `None`. -/
structure DateFilter where
  year : Option Int
  month : Option Int
  start_date : Option PyDateTime
  end_date : Option PyDateTime
deriving DecidableEq, Repr

/-- `AlbumSpec` dataclass (matcher.py lines 19-25). -/
structure AlbumSpec where
  name : String
  keywords : List String
  date_filter : Option DateFilter
  original_prompt : String
deriving DecidableEq, Repr

/-- `PhotoMetadata` dataclass (matcher.py lines 28-38).  The Python
annotations of `file_created`/`file_modified` are non-`Optional`, but Python
does not enforce them and `match_date` explicitly guards
`if not photo_date: return False`; they are therefore embedded as `Option`
so that the guarded `None` case is representable. -/
structure PhotoMetadata where
  path : String
  filename : String
  folder_name : String
  file_created : Option PyDateTime
  file_modified : Option PyDateTime
  exif_date : Option PyDateTime
  exif_location : Option (Int × Int)
  size_bytes : Nat
deriving DecidableEq, Repr

/-- `MatchResult` dataclass (matcher.py lines 41-46); the Python `dict` for
`matched` is embedded as an association list whose keys are in first-insertion
order, as Python dicts are. -/
structure MatchResult where
  matched : List (String × List PhotoMetadata)
  unmatched : List PhotoMetadata
  match_stats : List (String × Nat)
deriving DecidableEq, Repr

/-! ### Character classes and basic string operations -/

/-- Python regex `\w` (ASCII fragment): letters, digits, underscore. -/
def pyIsWordChar (c : Char) : Bool :=
  c.isAlpha || c.isDigit || c = '_'

/-- Python regex `\s` / `str.strip` whitespace (ASCII fragment). -/
def pyIsSpace (c : Char) : Bool :=
  c = ' ' || c = '\t' || c = '\n' || c = '\r' || c = '\x0b' || c = '\x0c'

/-- Python `str.lower` (ASCII fragment). -/
def lowerChars (s : List Char) : List Char :=
  s.map Char.toLower

/-- Consume an exact literal at the front of the text; `some rest` on
success.  Used for regex literal alternatives (the scanned text is already
lower-cased by the callers, as in the source). -/
def dropLit : List Char → List Char → Option (List Char)
  | [], t => some t
  | _ :: _, [] => none
  | p :: ps, c :: cs => if c = p then dropLit ps cs else none

/-- Python `needle in haystack` substring test. -/
def startsWithChars : List Char → List Char → Bool
  | [], _ => true
  | _ :: _, [] => false
  | p :: ps, c :: cs => p = c && startsWithChars ps cs

/-- Python `needle in haystack` (substring containment). -/
def containsSub (needle : List Char) : List Char → Bool
  | [] => needle.isEmpty
  | c :: cs => startsWithChars needle (c :: cs) || containsSub needle cs

/-- Python `str.split(sep)` for a one-character separator: keeps empty
segments, `"" → [""]`. -/
def splitOnChar (sep : Char) : List Char → List (List Char)
  | [] => [[]]
  | c :: cs =>
    let r := splitOnChar sep cs
    if c = sep then [] :: r
    else
      match r with
      | h :: t => (c :: h) :: t
      | [] => [[c]]

/-! ### The wildcard branch of `match_filename` / `match_folder`

A keyword containing `'*'` is turned into the regex
`'^' + keyword.replace('*', '.*')` and run with `re.search(..., IGNORECASE)`
against the lower-cased candidate (matcher.py lines 300-305, 359-364).  The
generated pattern is an anchored sequence of segments separated by `.*`;
within a segment `'.'` matches any character except `'\n'` (Python `re`
semantics for `.` without `DOTALL`) and every other character matches itself
case-insensitively. -/

/-- One pattern character against one text character: `'.'` is the regex
any-character-except-newline; every other character is treated as a
case-insensitive literal (the `re.IGNORECASE` flag).  This is exactly the
behaviour of the compiled Python pattern when the keyword's characters
besides `'*'` are regex-plain — not one of the `re` metacharacters
`. ^ $ * + ? brace bracket backslash | ( )` — which is the region the C4
theorem quantifies over (`regexPlainChar`); a metacharacter in a keyword
would keep its regex meaning (or raise `re.error`) in Python. -/
def charPatMatch (p c : Char) : Bool :=
  if p = '.' then c ≠ '\n' else p.toLower = c.toLower

/-- Match a star-free segment at the front of the text, returning the rest. -/
def matchChars : List Char → List Char → Option (List Char)
  | [], t => some t
  | _ :: _, [] => none
  | p :: ps, c :: cs => if charPatMatch p c then matchChars ps cs else none

/-- Match `.* seg` against the text and hand the remainder to the
continuation `k`: try the segment after every gap of zero or more
non-newline characters. -/
def matchOneSeg (seg : List Char) (k : List Char → Bool) : List Char → Bool
  | [] =>
    match matchChars seg [] with
    | some t => k t
    | none => false
  | c :: cs =>
    (match matchChars seg (c :: cs) with
     | some t => k t
     | none => false) ||
    (c ≠ '\n' && matchOneSeg seg k cs)

/-- Match `.* seg₀ .* seg₁ ⋯` against the text: each segment may be preceded
by a gap of zero or more non-newline characters; trailing text is allowed
(the compiled pattern is only anchored at the start). -/
def matchSegsFrom : List (List Char) → List Char → Bool
  | [], _ => true
  | seg :: rest, text => matchOneSeg seg (matchSegsFrom rest) text

/-- `re.search('^' + keyword.replace('*','.*'), text, IGNORECASE)` for a
keyword that contains `'*'`: the first segment is anchored at position 0,
later segments follow `.*` gaps.  Faithful to Python's compiled regex for
keywords whose non-`'*'` characters are regex-plain (see `charPatMatch`
and `regexPlainChar`); the C4 theorem restricts itself to that region. -/
def wildcardSearch (keyword text : List Char) : Bool :=
  match splitOnChar '*' keyword with
  | [] => false
  | seg0 :: rest =>
    match matchChars seg0 text with
    | some t => matchSegsFrom rest t
    | none => false

/-- Keyword test shared verbatim by `match_filename` (lines 300-310) and
`match_folder` (lines 359-369): wildcard keywords go through the compiled
anchored pattern, plain keywords are lower-cased substring tests. -/
def keywordMatchesText (keyword textLower : List Char) : Bool :=
  if keyword.contains '*' then
    wildcardSearch keyword textLower
  else
    containsSub (lowerChars keyword) textLower

/-- `PatternMatcher.match_filename` (matcher.py lines 288-312). -/
def match_filename (photo : PhotoMetadata) (keywords : List String) : Bool :=
  let filename_lower := lowerChars photo.filename.data
  keywords.any fun kw => keywordMatchesText kw.data filename_lower

/-- `PatternMatcher.match_folder` (matcher.py lines 347-371). -/
def match_folder (photo : PhotoMetadata) (keywords : List String) : Bool :=
  let folder_lower := lowerChars photo.folder_name.data
  keywords.any fun kw => keywordMatchesText kw.data folder_lower

/-! ### `match_date` -/

/-- Python truthiness of an `Optional[int]`: `None` and `0` are falsy.
(`if date_filter.year and ...` in the source.) -/
def optIntTruthy : Option Int → Bool
  | none => false
  | some n => n ≠ 0

/-- The photo's preferred date: `photo.exif_date if photo.exif_date else
photo.file_created` (matcher.py line 325). -/
def photoDate (photo : PhotoMetadata) : Option PyDateTime :=
  match photo.exif_date with
  | some d => some d
  | none => photo.file_created

/-- `PatternMatcher.match_date` (matcher.py lines 314-345): an absent
preferred date fails every filter; otherwise each truthy field of the filter
must agree (year equality, month equality, inclusive range bounds). -/
def match_date (photo : PhotoMetadata) (date_filter : DateFilter) : Bool :=
  match photoDate photo with
  | none => false
  | some d =>
    if optIntTruthy date_filter.year && d.year ≠ date_filter.year.getD 0 then
      false
    else if optIntTruthy date_filter.month && d.month ≠ date_filter.month.getD 0 then
      false
    else if (date_filter.start_date.map fun s => PyDateTime.lt d s).getD false then
      false
    else if (date_filter.end_date.map fun e => PyDateTime.lt e d).getD false then
      false
    else true

/-- `PatternMatcher._matches_spec` (matcher.py lines 256-286): keyword match
on filename or folder; with a date filter present the branch structure
(`keyword_match && date_match`, else `keyword_match`, else `False`) is kept
verbatim. -/
def matches_spec (photo : PhotoMetadata) (spec : AlbumSpec) : Bool :=
  let keyword_match :=
    match_filename photo spec.keywords || match_folder photo spec.keywords
  match spec.date_filter with
  | some f =>
    let date_match := match_date photo f
    if keyword_match && date_match then true
    else if keyword_match then true
    else false
  | none => keyword_match

/-! ### `PatternMatcher.match` -/

/-- Key list of the Python dict comprehension
`{spec.name: [] for spec in self.album_specs}` (matcher.py line 228):
first-occurrence order, duplicates collapsed. -/
def dedupKeysAux (seen : List String) : List String → List String
  | [] => []
  | n :: rest =>
    if n ∈ seen then dedupKeysAux seen rest
    else n :: dedupKeysAux (seen ++ [n]) rest

/-- First-occurrence key order of a Python dict built from the given keys. -/
def dedupKeys (l : List String) : List String :=
  dedupKeysAux [] l

/-- The initial `matched` dict: one empty bucket per distinct spec name. -/
def initBuckets (specs : List AlbumSpec) : List (String × List PhotoMetadata) :=
  (dedupKeys (specs.map fun s => s.name)).map fun n =>
    (n, ([] : List PhotoMetadata))

/-- `matched[matched_album].append(photo)`: append at the first entry with
the given key (association-list embedding of the dict update). -/
def updateBucket (m : List (String × List PhotoMetadata)) (key : String)
    (photo : PhotoMetadata) : List (String × List PhotoMetadata) :=
  match m with
  | [] => []
  | (n, ps) :: rest =>
    if n = key then (n, ps ++ [photo]) :: rest
    else (n, ps) :: updateBucket rest key photo

/-- The inner `for spec in self.album_specs: ... break` loop of `match`
(matcher.py lines 237-240): the name of the first spec for which
`_matches_spec` holds, else `None`. -/
def matchedAlbumFor (specs : List AlbumSpec) (photo : PhotoMetadata) :
    Option String :=
  (specs.find? fun s => matches_spec photo s).map fun s => s.name

/-- Python truthiness of `matched_album` (`Optional[str]`): `None` and the
empty string are falsy (the `if matched_album:` gate, matcher.py line 242). -/
def albumTruthy : Option String → Bool
  | none => false
  | some n => n ≠ ""

/-- One iteration of the `for photo in photos` loop of `match`
(matcher.py lines 233-245). -/
def matchStep (specs : List AlbumSpec)
    (acc : List (String × List PhotoMetadata) × List PhotoMetadata)
    (photo : PhotoMetadata) :
    List (String × List PhotoMetadata) × List PhotoMetadata :=
  match matchedAlbumFor specs photo with
  | some name =>
    if name ≠ "" then (updateBucket acc.1 name photo, acc.2)
    else (acc.1, acc.2 ++ [photo])
  | none => (acc.1, acc.2 ++ [photo])

/-- `PatternMatcher.match` (matcher.py lines 219-254); named `matchPhotos`
because `match` is a reserved word in Lean. -/
def matchPhotos (specs : List AlbumSpec) (photos : List PhotoMetadata) :
    MatchResult :=
  let res := photos.foldl (matchStep specs) (initBuckets specs, [])
  ⟨res.1, res.2, res.1.map fun p => (p.1, p.2.length)⟩

/-- Contents of the bucket of a given album name in a match result
(`result.matched[name]`, empty when absent). -/
def bucketContents (r : MatchResult) (name : String) : List PhotoMetadata :=
  ((r.matched.find? fun p => p.1 = name).map fun p => p.2).getD []

/-- All photos stored in the buckets of a `matched` dict, in bucket order. -/
def bucketsJoin (m : List (String × List PhotoMetadata)) : List PhotoMetadata :=
  (m.map fun e => e.2).flatten

/-- The decision `match` takes for a photo with respect to the bucket named
`n`: the first matching spec is named `n` and `n` is truthy. -/
def bucketPred (specs : List AlbumSpec) (n : String)
    (photo : PhotoMetadata) : Bool :=
  decide (matchedAlbumFor specs photo = some n) && decide (n ≠ "")

/-! ### `PromptParser`

The parser works on the lower-cased prompt with a fixed set of regex
operations.  Each regex is embedded as an explicit left-to-right scanner:
a match attempt at the current position (with alternation tried in the
regex's order, as Python's backtracking engine does) plus a driver that
advances one character on failure and resumes after the consumed text on
success, exactly like `re.finditer` / `re.sub`.  The `\b` assertions are
tracked by carrying whether the previous character of the original text is
a word character.  The scanners use fuel instantiated with the text length;
every step consumes at least one character, so the fuel never runs out. -/

/-- `MONTH_NAMES` (matcher.py lines 53-66) in dict insertion order — the
order in which the alternation of `extract_dates` pattern 1 is tried. -/
def MONTH_NAMES : List (List Char × Int) :=
  [("january".data, 1), ("jan".data, 1),
   ("february".data, 2), ("feb".data, 2),
   ("march".data, 3), ("mar".data, 3),
   ("april".data, 4), ("apr".data, 4),
   ("may".data, 5),
   ("june".data, 6), ("jun".data, 6),
   ("july".data, 7), ("jul".data, 7),
   ("august".data, 8), ("aug".data, 8),
   ("september".data, 9), ("sep".data, 9), ("sept".data, 9),
   ("october".data, 10), ("oct".data, 10),
   ("november".data, 11), ("nov".data, 11),
   ("december".data, 12), ("dec".data, 12)]

/-- `STOP_WORDS` (matcher.py lines 69-73). -/
def STOP_WORDS : List String :=
  ["a", "an", "and", "or", "the", "in", "on", "at", "to", "for",
   "of", "with", "by", "from", "create", "albums", "album", "photos",
   "organize", "sort", "group"]

/-- Consume `\s+` (greedy, at least one whitespace character). -/
def dropWs1 : List Char → Option (List Char)
  | c :: cs => if pyIsSpace c then some (cs.dropWhile pyIsSpace) else none
  | [] => none

/-- Numeric value of a decimal digit character. -/
def digitToInt (c : Char) : Int :=
  Int.ofNat (c.toNat - 48)

/-- Consume `\d{4}`, returning its numeric value. -/
def dropDigits4 : List Char → Option (Int × List Char)
  | a :: b :: c :: d :: rest =>
    if a.isDigit && b.isDigit && c.isDigit && d.isDigit then
      some (1000 * digitToInt a + 100 * digitToInt b + 10 * digitToInt c +
        digitToInt d, rest)
    else none
  | _ => none

/-- Consume `\d{2}`, returning its numeric value. -/
def dropDigits2 : List Char → Option (Int × List Char)
  | a :: b :: rest =>
    if a.isDigit && b.isDigit then
      some (10 * digitToInt a + digitToInt b, rest)
    else none
  | _ => none

/-- `\b` after a match: the next character (if any) is not a word
character. -/
def boundaryAfter : List Char → Bool
  | [] => true
  | c :: _ => !pyIsWordChar c

/-- One attempt of `\b(<month-names>)\s+(\d{4})\b` at the current position
(the leading `\b` is checked by the scanner): alternatives are tried in
`MONTH_NAMES` order and the first that lets the whole pattern succeed wins,
as in Python's backtracking engine. -/
def tryMonthYear (text : List Char) : Option (Int × Int × List Char) :=
  MONTH_NAMES.findSome? fun nm =>
    match dropLit nm.1 text with
    | some t1 =>
      match dropWs1 t1 with
      | some t2 =>
        match dropDigits4 t2 with
        | some (y, t3) =>
          if boundaryAfter t3 then some (y, nm.2, t3) else none
        | none => none
      | none => none
    | none => none

/-- `re.finditer` driver for pattern 1 (matcher.py lines 156-163); every
match ends in a digit, a word character, so scanning resumes with the
previous-is-word-character flag set. -/
def scanMonthYear : Nat → Bool → List Char → List (Int × Int)
  | 0, _, _ => []
  | _ + 1, _, [] => []
  | fuel + 1, prevWord, c :: cs =>
    match (if prevWord then none else tryMonthYear (c :: cs)) with
    | some (y, m, rest) => (y, m) :: scanMonthYear fuel true rest
    | none => scanMonthYear fuel (pyIsWordChar c) cs

/-- One attempt of `\b(\d{4})-(\d{2})\b` at the current position. -/
def tryYYYYMM (text : List Char) : Option (Int × Int × List Char) :=
  match dropDigits4 text with
  | some (y, t1) =>
    match t1 with
    | '-' :: t2 =>
      match dropDigits2 t2 with
      | some (m, t3) => if boundaryAfter t3 then some (y, m, t3) else none
      | none => none
    | _ => none
  | none => none

/-- `re.finditer` driver for pattern 2 (matcher.py lines 166-173). -/
def scanYYYYMM : Nat → Bool → List Char → List (Int × Int)
  | 0, _, _ => []
  | _ + 1, _, [] => []
  | fuel + 1, prevWord, c :: cs =>
    match (if prevWord then none else tryYYYYMM (c :: cs)) with
    | some (y, m, rest) => (y, m) :: scanYYYYMM fuel true rest
    | none => scanYYYYMM fuel (pyIsWordChar c) cs

/-- One attempt of `\b(\d{4})\b` at the current position. -/
def tryYear4 (text : List Char) : Option (Int × List Char) :=
  match dropDigits4 text with
  | some (y, t1) => if boundaryAfter t1 then some (y, t1) else none
  | none => none

/-- `re.finditer` driver for pattern 3 (matcher.py lines 177-182). -/
def scanBareYear : Nat → Bool → List Char → List Int
  | 0, _, _ => []
  | _ + 1, _, [] => []
  | fuel + 1, prevWord, c :: cs =>
    match (if prevWord then none else tryYear4 (c :: cs)) with
    | some (y, rest) => y :: scanBareYear fuel true rest
    | none => scanBareYear fuel (pyIsWordChar c) cs

/-- Category (a) of `extract_dates` (matcher.py lines 155-163):
`"<month by name> <4-digit year>"` occurrences, in text order. -/
def monthYearFilters (text : List Char) : List DateFilter :=
  (scanMonthYear text.length false text).map fun ym =>
    ⟨some ym.1, some ym.2, none, none⟩

/-- Category (b) of `extract_dates` (matcher.py lines 165-173): `YYYY-MM`
tokens whose month part lies in 1..12, in text order. -/
def yyyymmFilters (text : List Char) : List DateFilter :=
  (scanYYYYMM text.length false text).filterMap fun ym =>
    if 1 ≤ ym.2 && ym.2 ≤ 12 then
      some ⟨some ym.1, some ym.2, none, none⟩
    else none

/-- Category (c) of `extract_dates` (matcher.py lines 175-182): bare
4-digit numbers in 2000..2100, in text order. -/
def bareYearFilters (text : List Char) : List DateFilter :=
  (scanBareYear text.length false text).filterMap fun y =>
    if 2000 ≤ y && y ≤ 2100 then some ⟨some y, none, none, none⟩ else none

/-- `PromptParser.extract_dates` (matcher.py lines 143-184): categories (a)
and (b) are always collected; category (c) only when (a) and (b) produced
nothing (`if not date_filters`). -/
def extract_dates (prompt : String) : List DateFilter :=
  let text := lowerChars prompt.data
  let date_filters := monthYearFilters text ++ yyyymmFilters text
  if date_filters.isEmpty then bareYearFilters text else date_filters

/-- `re.sub(pattern, rep, text)` for a pattern without `\b`: at each
position try the match attempt; on success emit the replacement and resume
after the consumed text. -/
def subNoB (tryM : List Char → Option (List Char)) (rep : List Char) :
    Nat → List Char → List Char
  | 0, t => t
  | _ + 1, [] => []
  | fuel + 1, c :: cs =>
    match tryM (c :: cs) with
    | some rest => rep ++ subNoB tryM rep fuel rest
    | none => c :: subNoB tryM rep fuel cs

/-- `re.sub(pattern, '', text)` for the `\b`-anchored date patterns: a
match is attempted only at `\b` positions; every pattern used with this
driver ends in a word character, so scanning resumes with the
previous-is-word-character flag set. -/
def subWithB (tryM : List Char → Option (List Char)) :
    Nat → Bool → List Char → List Char
  | 0, _, t => t
  | _ + 1, _, [] => []
  | fuel + 1, prevWord, c :: cs =>
    match (if prevWord then none else tryM (c :: cs)) with
    | some rest => subWithB tryM fuel true rest
    | none => c :: subWithB tryM fuel (pyIsWordChar c) cs

/-- `create albums? for` (matcher.py line 115): backtracking order of the
greedy `s?`. -/
def tryCreateFor (text : List Char) : Option (List Char) :=
  match dropLit "create albums for".data text with
  | some rest => some rest
  | none => dropLit "create album for".data text

/-- `organize (photos? )?into` (matcher.py line 116): group present with
`s`, group present without `s`, group absent. -/
def tryOrganizeInto (text : List Char) : Option (List Char) :=
  match dropLit "organize photos into".data text with
  | some rest => some rest
  | none =>
    match dropLit "organize photo into".data text with
    | some rest => some rest
    | none => dropLit "organize into".data text

/-- `sort (photos? )?by` (matcher.py line 117). -/
def trySortBy (text : List Char) : Option (List Char) :=
  match dropLit "sort photos by".data text with
  | some rest => some rest
  | none =>
    match dropLit "sort photo by".data text with
    | some rest => some rest
    | none => dropLit "sort by".data text

/-- `\b\d{4}\b` attempt for the year-stripping pass (matcher.py line 120);
the leading `\b` is checked by `subWithB`. -/
def tryBareYear (text : List Char) : Option (List Char) :=
  match dropDigits4 text with
  | some (_, rest) => if boundaryAfter rest then some rest else none
  | none => none

/-- Alternation order of the full month names regex (matcher.py line 121). -/
def FULL_MONTHS : List (List Char) :=
  ["january".data, "february".data, "march".data, "april".data, "may".data,
   "june".data, "july".data, "august".data, "september".data,
   "october".data, "november".data, "december".data]

/-- Alternation order of the abbreviated month names regex
(matcher.py line 122): note `sep` is tried before `sept`, and the
backtracking engine falls through to `sept` when the trailing `\b`
fails after `sep`. -/
def ABBREV_MONTHS : List (List Char) :=
  ["jan".data, "feb".data, "mar".data, "apr".data, "may".data, "jun".data,
   "jul".data, "aug".data, "sep".data, "sept".data, "oct".data, "nov".data,
   "dec".data]

/-- `\b(<month alternatives>)\b` attempt: the first alternative that is a
literal prefix here and is followed by a word boundary. -/
def tryMonthWord (alts : List (List Char)) (text : List Char) :
    Option (List Char) :=
  alts.findSome? fun nm =>
    match dropLit nm text with
    | some rest => if boundaryAfter rest then some rest else none
    | none => none

/-- `\d{4}-\d{2}` attempt — no word boundaries (matcher.py line 123). -/
def tryYYYYMMNoB (text : List Char) : Option (List Char) :=
  match dropDigits4 text with
  | some (_, t1) =>
    match t1 with
    | '-' :: t2 =>
      match dropDigits2 t2 with
      | some (_, t3) => some t3
      | none => none
    | _ => none
  | none => none

/-- `\s+<word>\s+` attempt for the conjunction-to-comma passes
(matcher.py lines 126-127); both whitespace runs are greedy and nonempty. -/
def tryWsWordWs (word : List Char) (text : List Char) :
    Option (List Char) :=
  match dropWs1 text with
  | some t1 =>
    match dropLit word t1 with
    | some t2 => dropWs1 t2
    | none => none
  | none => none

/-- Python `str.strip()`. -/
def stripChars (t : List Char) : List Char :=
  ((t.dropWhile pyIsSpace).reverse.dropWhile pyIsSpace).reverse

/-- Python `str.split()` with no argument: split on whitespace runs,
dropping empty fields. -/
def splitWsAux (acc : List Char) : List Char → List (List Char)
  | [] => if acc.isEmpty then [] else [acc.reverse]
  | c :: cs =>
    if pyIsSpace c then
      if acc.isEmpty then splitWsAux [] cs
      else acc.reverse :: splitWsAux [] cs
    else splitWsAux (c :: acc) cs

/-- Python `str.split()` with no argument. -/
def splitWs (t : List Char) : List (List Char) :=
  splitWsAux [] t

/-- Python `str.capitalize()`: first character upper-cased, the rest
lower-cased. -/
def pyCapitalize : List Char → List Char
  | [] => []
  | c :: cs => c.toUpper :: lowerChars cs

/-- `' '.join(word.capitalize() for word in part.split())`
(matcher.py line 137). -/
def titleWords (part : List Char) : List Char :=
  List.intercalate [' '] ((splitWs part).map pyCapitalize)

/-- `PromptParser.extract_album_names` (matcher.py lines 104-141): the
fixed sequence of `re.sub` passes over the lower-cased prompt, then
comma-splitting, stripping, and title-casing of the nonempty parts. -/
def extract_album_names (prompt : String) : List String :=
  let text := lowerChars prompt.data
  let text := subNoB tryCreateFor [] text.length text
  let text := subNoB tryOrganizeInto [] text.length text
  let text := subNoB trySortBy [] text.length text
  let text := subWithB tryBareYear text.length false text
  let text := subWithB (tryMonthWord FULL_MONTHS) text.length false text
  let text := subWithB (tryMonthWord ABBREV_MONTHS) text.length false text
  let text := subNoB tryYYYYMMNoB [] text.length text
  let text := subNoB (tryWsWordWs "and".data) [','] text.length text
  let text := subNoB (tryWsWordWs "or".data) [','] text.length text
  let parts := (splitOnChar ',' text).map stripChars
  parts.filterMap fun part =>
    if !part.isEmpty then
      let name := titleWords part
      if !name.isEmpty then some (String.mk name) else none
    else none

/-- `PromptParser.extract_keywords` (matcher.py lines 186-205). -/
def extract_keywords (album_name : String) : List String :=
  let lowerName := String.mk (lowerChars album_name.data)
  let words := (splitWs (lowerChars album_name.data)).map String.mk
  let keywords := words.filter fun w => !STOP_WORDS.contains w
  if !keywords.contains lowerName then lowerName :: keywords else keywords

/-- `PromptParser.parse` (matcher.py lines 75-102): every extracted album
name becomes a spec carrying the *first* extracted date filter (if any)
and the verbatim prompt. -/
def PromptParser.parse (prompt : String) : List AlbumSpec :=
  let album_names := extract_album_names prompt
  let dates := extract_dates prompt
  album_names.map fun name =>
    ⟨name, extract_keywords name, dates.head?, prompt⟩

/-! ### The specification's reading of wildcard keywords (for C4) -/

/-- A character with no special meaning in a Python regular expression:
none of `. ^ $ * + ? brace bracket backslash | ( )` (braces written as
escapes).  Keywords built from such characters plus a `'*'` compile — via
`keyword.replace('*', '.*')` — to patterns in which every non-`'*'`
character is a literal, the fragment `wildcardSearch` embeds faithfully. -/
def regexPlainChar (c : Char) : Bool :=
  !(['.', '^', '$', '*', '+', '?', '\x7b', '\x7d', '[', ']', '\\', '|',
    '(', ')'].contains c)

/-- Pointwise case-insensitive character-list equality. -/
def ciEqB : List Char → List Char → Bool
  | [], [] => true
  | a :: as, b :: bs => (a.toLower = b.toLower) && ciEqB as bs
  | _, _ => false

/-- Modelled from the spec's words (C4): for a keyword `pre*post`, the
candidate, compared case-insensitively, "starts with the keyword's prefix
before `*` followed by zero or more characters then the part after `*`",
anchored at the start; stated over the case-normalized (lower-cased)
candidate, with the gap unrestricted. -/
def specWildcardReading (pre post cand : List Char) : Prop :=
  ∃ p g s r, cand = p ++ g ++ s ++ r ∧ ciEqB pre p = true ∧
    ciEqB post s = true

/-- The amended reading of the wildcard clause of C4: as
`specWildcardReading`, but the gap standing for `*` cannot contain a
newline, because the compiled pattern uses `.*` and Python's `.` does not
match `'\n'`. -/
def amendedWildcardReading (pre post cand : List Char) : Prop :=
  ∃ p g s r, cand = p ++ g ++ s ++ r ∧ ciEqB pre p = true ∧
    (∀ c ∈ g, c ≠ '\n') ∧ ciEqB post s = true

/-! ### Lemmas about the bucket structure of `match` -/

theorem mem_dedupKeysAux (a : String) :
    ∀ (l seen : List String), a ∈ dedupKeysAux seen l ↔ a ∈ l ∧ a ∉ seen := by
  intro l
  induction l with
  | nil => intro seen; simp [dedupKeysAux]
  | cons n rest ih =>
    intro seen
    by_cases hn : n ∈ seen
    · rw [dedupKeysAux, if_pos hn, ih]
      constructor
      · rintro ⟨h1, h2⟩
        exact ⟨List.mem_cons_of_mem _ h1, h2⟩
      · rintro ⟨h1, h2⟩
        rcases List.mem_cons.mp h1 with rfl | h1
        · exact absurd hn h2
        · exact ⟨h1, h2⟩
    · rw [dedupKeysAux, if_neg hn]
      constructor
      · intro h
        rcases List.mem_cons.mp h with rfl | h
        · exact ⟨List.mem_cons_self _ _, hn⟩
        · rcases (ih _).mp h with ⟨h1, h2⟩
          refine ⟨List.mem_cons_of_mem _ h1, fun hs => h2 ?_⟩
          exact List.mem_append_left _ hs
      · rintro ⟨h1, h2⟩
        rcases List.mem_cons.mp h1 with rfl | h1
        · exact List.mem_cons_self _ _
        · by_cases han : a = n
          · subst han; exact List.mem_cons_self _ _
          · refine List.mem_cons_of_mem _ ((ih _).mpr ⟨h1, fun hs => ?_⟩)
            rcases List.mem_append.mp hs with hs | hs
            · exact h2 hs
            · exact han (List.mem_singleton.mp hs)

theorem mem_dedupKeys (a : String) (l : List String) :
    a ∈ dedupKeys l ↔ a ∈ l := by
  rw [dedupKeys, mem_dedupKeysAux]
  simp

theorem dedupKeysAux_nodup : ∀ (l seen : List String),
    (dedupKeysAux seen l).Nodup := by
  intro l
  induction l with
  | nil => intro seen; simp [dedupKeysAux]
  | cons n rest ih =>
    intro seen
    by_cases hn : n ∈ seen
    · rw [dedupKeysAux, if_pos hn]; exact ih _
    · rw [dedupKeysAux, if_neg hn]
      refine List.nodup_cons.mpr ⟨fun hmem => ?_, ih _⟩
      rcases (mem_dedupKeysAux _ _ _).mp hmem with ⟨_, h2⟩
      exact h2 (List.mem_append_right _ (List.mem_singleton.mpr rfl))

theorem dedupKeys_nodup (l : List String) : (dedupKeys l).Nodup :=
  dedupKeysAux_nodup l []

theorem updateBucket_keys (m : List (String × List PhotoMetadata))
    (key : String) (photo : PhotoMetadata) :
    (updateBucket m key photo).map (fun e => e.1) = m.map fun e => e.1 := by
  induction m with
  | nil => rfl
  | cons e rest ih =>
    obtain ⟨n, ps⟩ := e
    by_cases h : n = key
    · simp [updateBucket, h]
    · simp [updateBucket, h, ih]

theorem updateBucket_join_perm (key : String) (photo : PhotoMetadata) :
    ∀ (m : List (String × List PhotoMetadata)),
      key ∈ m.map (fun e => e.1) →
      (bucketsJoin (updateBucket m key photo)).Perm (photo :: bucketsJoin m) := by
  intro m
  induction m with
  | nil => intro h; simp at h
  | cons e rest ih =>
    intro h
    obtain ⟨n, ps⟩ := e
    by_cases hn : n = key
    · rw [updateBucket, if_pos hn]
      simp only [bucketsJoin, List.map_cons, List.flatten_cons]
      have h1 : (ps ++ [photo]) ++ (rest.map fun e => e.2).flatten =
          ps ++ photo :: (rest.map fun e => e.2).flatten := by
        simp
      rw [h1]
      exact List.perm_middle
    · rw [updateBucket, if_neg hn]
      simp only [bucketsJoin, List.map_cons, List.flatten_cons]
      have hkey : key ∈ rest.map fun e => e.1 := by
        rw [List.map_cons] at h
        rcases List.mem_cons.mp h with h1 | h1
        · exact absurd h1.symm hn
        · exact h1
      exact ((ih hkey).append_left ps).trans List.perm_middle

theorem matchedAlbumFor_mem_names (specs : List AlbumSpec)
    (photo : PhotoMetadata) (name : String)
    (h : matchedAlbumFor specs photo = some name) :
    name ∈ specs.map fun s => s.name := by
  unfold matchedAlbumFor at h
  cases hf : specs.find? fun s => matches_spec photo s with
  | none => rw [hf] at h; simp at h
  | some s =>
    rw [hf] at h
    simp at h
    subst h
    exact List.mem_map_of_mem _ (List.mem_of_find?_eq_some hf)

/-- The step taken for a photo whose `matched_album` is falsy
(`None` or the empty string): it is appended to `unmatched`. -/
theorem matchStep_eq_unmatched (specs : List AlbumSpec)
    (acc : List (String × List PhotoMetadata) × List PhotoMetadata)
    (photo : PhotoMetadata)
    (h : albumTruthy (matchedAlbumFor specs photo) = false) :
    matchStep specs acc photo = (acc.1, acc.2 ++ [photo]) := by
  unfold matchStep
  cases hm : matchedAlbumFor specs photo with
  | none => rfl
  | some name =>
    rw [hm] at h
    unfold albumTruthy at h
    simp only [ne_eq, decide_not, Bool.not_eq_false', decide_eq_true_eq] at h
    simp [h]

/-- The step taken for a photo whose `matched_album` is a nonempty name:
it is appended to that bucket. -/
theorem matchStep_eq_bucket (specs : List AlbumSpec)
    (acc : List (String × List PhotoMetadata) × List PhotoMetadata)
    (photo : PhotoMetadata) (name : String)
    (hm : matchedAlbumFor specs photo = some name) (hne : name ≠ "") :
    matchStep specs acc photo = (updateBucket acc.1 name photo, acc.2) := by
  unfold matchStep
  rw [hm]
  simp [hne]

theorem matchStep_keys (specs : List AlbumSpec)
    (acc : List (String × List PhotoMetadata) × List PhotoMetadata)
    (photo : PhotoMetadata) :
    ((matchStep specs acc photo).1).map (fun e => e.1) =
      acc.1.map fun e => e.1 := by
  cases hm : matchedAlbumFor specs photo with
  | none => rw [matchStep_eq_unmatched specs acc photo (by rw [hm]; rfl)]
  | some name =>
    by_cases h : name = ""
    · rw [matchStep_eq_unmatched specs acc photo
        (by rw [hm, h]; rfl)]
    · rw [matchStep_eq_bucket specs acc photo name hm h]
      exact updateBucket_keys _ _ _

theorem singleton_append_perm (l : List PhotoMetadata) (p : PhotoMetadata) :
    (l ++ [p]).Perm (p :: l) := by
  simp

theorem matchStep_perm (specs : List AlbumSpec)
    (acc : List (String × List PhotoMetadata) × List PhotoMetadata)
    (photo : PhotoMetadata)
    (hsub : ∀ n ∈ specs.map (fun s => s.name), n ∈ acc.1.map fun e => e.1) :
    (bucketsJoin (matchStep specs acc photo).1 ++
      (matchStep specs acc photo).2).Perm
      (photo :: (bucketsJoin acc.1 ++ acc.2)) := by
  by_cases ht : albumTruthy (matchedAlbumFor specs photo) = false
  · rw [matchStep_eq_unmatched specs acc photo ht]
    have h1 : bucketsJoin acc.1 ++ (acc.2 ++ [photo]) =
        (bucketsJoin acc.1 ++ acc.2) ++ [photo] := by
      rw [List.append_assoc]
    rw [h1]
    exact singleton_append_perm _ _
  · have ht' : albumTruthy (matchedAlbumFor specs photo) = true := by
      revert ht; cases albumTruthy (matchedAlbumFor specs photo) <;> simp
    cases hm : matchedAlbumFor specs photo with
    | none => rw [hm] at ht'; exact absurd ht' (by simp [albumTruthy])
    | some name =>
      rw [hm] at ht'
      have hne : name ≠ "" := by
        unfold albumTruthy at ht'
        simpa using ht'
      rw [matchStep_eq_bucket specs acc photo name hm hne]
      have hkey : name ∈ acc.1.map fun e => e.1 :=
        hsub name (matchedAlbumFor_mem_names specs photo name hm)
      exact (updateBucket_join_perm name photo acc.1 hkey).append
        (List.Perm.refl acc.2)

theorem foldl_matchStep_perm (specs : List AlbumSpec) :
    ∀ (photos : List PhotoMetadata)
      (acc : List (String × List PhotoMetadata) × List PhotoMetadata),
      (∀ n ∈ specs.map (fun s => s.name), n ∈ acc.1.map fun e => e.1) →
      (bucketsJoin (photos.foldl (matchStep specs) acc).1 ++
        (photos.foldl (matchStep specs) acc).2).Perm
        (photos ++ (bucketsJoin acc.1 ++ acc.2)) := by
  intro photos
  induction photos with
  | nil => intro acc _; simp
  | cons p ps ih =>
    intro acc hsub
    rw [List.foldl_cons]
    have hsub' : ∀ n ∈ specs.map (fun s => s.name),
        n ∈ (matchStep specs acc p).1.map fun e => e.1 := by
      intro n hn
      rw [matchStep_keys]
      exact hsub n hn
    have step1 := ih (matchStep specs acc p) hsub'
    have step2 := (matchStep_perm specs acc p hsub).append_left ps
    have step3 : (ps ++ (p :: (bucketsJoin acc.1 ++ acc.2))).Perm
        (p :: ps ++ (bucketsJoin acc.1 ++ acc.2)) := by
      simp
    exact (step1.trans step2).trans step3

theorem initBuckets_keys (specs : List AlbumSpec) :
    (initBuckets specs).map (fun e => e.1) =
      dedupKeys (specs.map fun s => s.name) := by
  unfold initBuckets
  generalize dedupKeys (specs.map fun s => s.name) = l
  induction l with
  | nil => rfl
  | cons n rest ih =>
    rw [List.map_cons, List.map_cons]
    rw [ih]

theorem initBuckets_join (specs : List AlbumSpec) :
    bucketsJoin (initBuckets specs) = [] := by
  unfold initBuckets bucketsJoin
  rw [List.map_map]
  induction dedupKeys (specs.map fun s => s.name) with
  | nil => rfl
  | cons n rest ih => simp [ih]

theorem bucketPred_false_of_falsy (specs : List AlbumSpec)
    (photo : PhotoMetadata)
    (h : albumTruthy (matchedAlbumFor specs photo) = false) (n : String) :
    bucketPred specs n photo = false := by
  unfold bucketPred
  cases hm : matchedAlbumFor specs photo with
  | none => simp
  | some name =>
    rw [hm] at h
    unfold albumTruthy at h
    simp only [ne_eq, decide_not, Bool.not_eq_false', decide_eq_true_eq] at h
    subst h
    by_cases hn : n = ""
    · simp [hn]
    · simp [Ne.symm hn]

theorem foldl_matchStep_unmatched (specs : List AlbumSpec) :
    ∀ (photos : List PhotoMetadata)
      (acc : List (String × List PhotoMetadata) × List PhotoMetadata),
      (photos.foldl (matchStep specs) acc).2 =
        acc.2 ++ photos.filter fun p =>
          !albumTruthy (matchedAlbumFor specs p) := by
  intro photos
  induction photos with
  | nil => intro acc; simp
  | cons p ps ih =>
    intro acc
    rw [List.foldl_cons]
    by_cases ht : albumTruthy (matchedAlbumFor specs p) = false
    · rw [matchStep_eq_unmatched specs acc p ht, ih]
      rw [List.filter_cons_of_pos (by rw [ht]; rfl)]
      simp
    · have ht' : albumTruthy (matchedAlbumFor specs p) = true := by
        revert ht; cases albumTruthy (matchedAlbumFor specs p) <;> simp
      cases hm : matchedAlbumFor specs p with
      | none => rw [hm] at ht'; exact absurd ht' (by simp [albumTruthy])
      | some name =>
        rw [hm] at ht'
        have hne : name ≠ "" := by
          unfold albumTruthy at ht'
          simpa using ht'
        rw [matchStep_eq_bucket specs acc p name hm hne, ih]
        rw [List.filter_cons_of_neg (by rw [hm, ht']; simp)]

theorem updateBucket_map_filter (specs : List AlbumSpec) (name : String)
    (p : PhotoMetadata) (ps : List PhotoMetadata)
    (hm : matchedAlbumFor specs p = some name) (hne : name ≠ "") :
    ∀ (m : List (String × List PhotoMetadata)),
      (m.map fun e => e.1).Nodup →
      ((updateBucket m name p).map fun e =>
        (e.1, e.2 ++ ps.filter (bucketPred specs e.1))) =
      m.map fun e => (e.1, e.2 ++ (p :: ps).filter (bucketPred specs e.1)) := by
  intro m
  induction m with
  | nil => intro _; rfl
  | cons e rest ih =>
    intro hnodup
    obtain ⟨k, v⟩ := e
    rw [List.map_cons] at hnodup
    have hk_notin : k ∉ rest.map fun e => e.1 := (List.nodup_cons.mp hnodup).1
    have hrest_nd : (rest.map fun e => e.1).Nodup := (List.nodup_cons.mp hnodup).2
    by_cases hkn : k = name
    · subst hkn
      rw [updateBucket, if_pos rfl]
      simp only [List.map_cons]
      have hpred : bucketPred specs k p = true := by
        unfold bucketPred
        rw [hm]
        simp [hne]
      rw [List.filter_cons_of_pos (by rw [hpred])]
      refine congrArg₂ _ (by simp) ?_
      refine List.map_congr_left fun e hmem => ?_
      have hne' : e.1 ≠ k := by
        intro hcontra
        exact hk_notin (hcontra ▸ List.mem_map_of_mem (fun e => e.1) hmem)
      have hpred' : bucketPred specs e.1 p = false := by
        unfold bucketPred
        rw [hm]
        simp only [Option.some.injEq, Bool.and_eq_false_iff, decide_eq_false_iff_not]
        exact Or.inl fun hcontra => hne' hcontra.symm
      rw [List.filter_cons_of_neg (by rw [hpred']; simp)]
    · rw [updateBucket, if_neg hkn]
      simp only [List.map_cons]
      have hpred : bucketPred specs k p = false := by
        unfold bucketPred
        rw [hm]
        simp only [Option.some.injEq, Bool.and_eq_false_iff, decide_eq_false_iff_not]
        exact Or.inl fun hcontra => hkn hcontra.symm
      rw [List.filter_cons_of_neg (by rw [hpred]; simp)]
      exact congrArg₂ _ rfl (ih hrest_nd)

theorem foldl_matchStep_buckets (specs : List AlbumSpec) :
    ∀ (photos : List PhotoMetadata)
      (m : List (String × List PhotoMetadata)) (u : List PhotoMetadata),
      (m.map fun e => e.1).Nodup →
      (photos.foldl (matchStep specs) (m, u)).1 =
        m.map fun e => (e.1, e.2 ++ photos.filter (bucketPred specs e.1)) := by
  intro photos
  induction photos with
  | nil =>
    intro m u _
    simp
  | cons p ps ih =>
    intro m u hnodup
    rw [List.foldl_cons]
    by_cases ht : albumTruthy (matchedAlbumFor specs p) = false
    · rw [matchStep_eq_unmatched specs (m, u) p ht]
      rw [ih m (u ++ [p]) hnodup]
      refine List.map_congr_left fun e _ => ?_
      rw [List.filter_cons_of_neg
        (by rw [bucketPred_false_of_falsy specs p ht e.1]; simp)]
    · have ht' : albumTruthy (matchedAlbumFor specs p) = true := by
        revert ht; cases albumTruthy (matchedAlbumFor specs p) <;> simp
      cases hm : matchedAlbumFor specs p with
      | none => rw [hm] at ht'; exact absurd ht' (by simp [albumTruthy])
      | some name =>
        rw [hm] at ht'
        have hne : name ≠ "" := by
          unfold albumTruthy at ht'
          simpa using ht'
        rw [matchStep_eq_bucket specs (m, u) p name hm hne]
        rw [ih (updateBucket m name p) u
          (by rw [updateBucket_keys]; exact hnodup)]
        exact updateBucket_map_filter specs name p ps hm hne m hnodup

/-- The `matched` dict of a `match` run, in closed form: one bucket per
distinct spec name, holding exactly the photos whose first matching spec
bears that (nonempty) name, in input order. -/
theorem matchPhotos_matched_eq (specs : List AlbumSpec)
    (photos : List PhotoMetadata) :
    (matchPhotos specs photos).matched =
      (dedupKeys (specs.map fun s => s.name)).map fun n =>
        (n, photos.filter (bucketPred specs n)) := by
  show (photos.foldl (matchStep specs) (initBuckets specs, [])).1 = _
  rw [foldl_matchStep_buckets specs photos (initBuckets specs) []
    (by rw [initBuckets_keys]; exact dedupKeys_nodup _)]
  unfold initBuckets
  rw [List.map_map]
  rfl

/-- The `unmatched` list of a `match` run, in closed form: the photos whose
`matched_album` is falsy (`None` or the empty string), in input order. -/
theorem matchPhotos_unmatched_eq (specs : List AlbumSpec)
    (photos : List PhotoMetadata) :
    (matchPhotos specs photos).unmatched =
      photos.filter fun p => !albumTruthy (matchedAlbumFor specs p) := by
  show (photos.foldl (matchStep specs) (initBuckets specs, [])).2 = _
  rw [foldl_matchStep_unmatched]
  rfl

theorem find?_map_keys (f : String → List PhotoMetadata) (n : String) :
    ∀ l : List String, n ∈ l →
      ((l.map fun k => (k, f k)).find? fun e => e.1 = n) = some (n, f n) := by
  intro l
  induction l with
  | nil => intro h; simp at h
  | cons k rest ih =>
    intro h
    rw [List.map_cons]
    by_cases hk : k = n
    · subst hk
      rw [List.find?_cons_of_pos _ (by simp)]
    · rw [List.find?_cons_of_neg _ (by simp [hk])]
      rcases List.mem_cons.mp h with rfl | h
      · exact absurd rfl hk
      · exact ih h

/-- The bucket of a given spec name, in closed form. -/
theorem bucketContents_matchPhotos (specs : List AlbumSpec)
    (photos : List PhotoMetadata) (n : String)
    (hn : n ∈ specs.map fun s => s.name) :
    bucketContents (matchPhotos specs photos) n =
      photos.filter (bucketPred specs n) := by
  unfold bucketContents
  rw [matchPhotos_matched_eq,
    find?_map_keys _ n _ ((mem_dedupKeys _ _).mpr hn)]
  rfl

/-- Any photo sitting in any bucket got there through `bucketPred`. -/
theorem bucketPred_of_mem_bucket (specs : List AlbumSpec)
    (photos : List PhotoMetadata) (e : String × List PhotoMetadata)
    (he : e ∈ (matchPhotos specs photos).matched)
    (p : PhotoMetadata) (hp : p ∈ e.2) : bucketPred specs e.1 p = true := by
  rw [matchPhotos_matched_eq] at he
  rcases List.mem_map.mp he with ⟨n, _, rfl⟩
  exact (List.mem_filter.mp hp).2

/-- `List.find?` returns the element at the least satisfying index: from a
satisfying index `i` one obtains the least one, `k ≤ i`. -/
theorem find?_least {α : Type} (p : α → Bool) :
    ∀ (l : List α) (i : Nat) (hi : i < l.length),
      p (l.get ⟨i, hi⟩) = true →
      ∃ k, ∃ hk : k < l.length, k ≤ i ∧ p (l.get ⟨k, hk⟩) = true ∧
        (∀ m (hm : m < l.length), m < k → p (l.get ⟨m, hm⟩) = false) ∧
        l.find? p = some (l.get ⟨k, hk⟩) := by
  intro l
  induction l with
  | nil => intro i hi; simp at hi
  | cons a t ih =>
    intro i hi hp
    by_cases ha : p a = true
    · refine ⟨0, by simp, Nat.zero_le _, ha, ?_, ?_⟩
      · intro m hm hlt; exact absurd hlt (Nat.not_lt_zero m)
      · rw [List.find?_cons_of_pos _ ha]
        rfl
    · have ha' : p a = false := by
        revert ha; cases p a <;> simp
      cases i with
      | zero => exact absurd hp (by simpa using ha)
      | succ i' =>
        have hi' : i' < t.length := Nat.lt_of_succ_lt_succ hi
        have hp' : p (t.get ⟨i', hi'⟩) = true := hp
        rcases ih i' hi' hp' with ⟨k, hk, hki, hpk, hmin, hfind⟩
        refine ⟨k + 1, Nat.succ_lt_succ hk, Nat.succ_le_succ hki, hpk, ?_, ?_⟩
        · intro m hm hlt
          cases m with
          | zero => exact ha'
          | succ m' =>
            exact hmin m' (Nat.lt_of_succ_lt_succ hm)
              (Nat.lt_of_succ_lt_succ hlt)
        · rw [List.find?_cons_of_neg _ (by simp [ha'])]
          exact hfind

/-! ### Lemmas relating the wildcard matcher to the decomposition reading -/

theorem bandE {a b : Bool} (h : (a && b) = true) : a = true ∧ b = true := by
  simp at h
  exact h

theorem borE {a b : Bool} (h : (a || b) = true) : a = true ∨ b = true := by
  simp at h
  exact h

theorem ciEqB_nil_iff (p : List Char) : ciEqB [] p = true ↔ p = [] := by
  cases p with
  | nil => simp [ciEqB]
  | cons b bs => simp [ciEqB]

theorem matchChars_eq_some_iff :
    ∀ (seg : List Char), '.' ∉ seg → ∀ (text t : List Char),
      (matchChars seg text = some t ↔
        ∃ p, text = p ++ t ∧ ciEqB seg p = true) := by
  intro seg
  induction seg with
  | nil =>
    intro _ text t
    constructor
    · intro h
      injection h with h
      exact ⟨[], by rw [h]; rfl, rfl⟩
    · rintro ⟨p, hsplit, hci⟩
      rw [ciEqB_nil_iff] at hci
      subst hci
      rw [hsplit]
      rfl
  | cons q qs ih =>
    intro hdot text t
    have hq : q ≠ '.' := fun hcontra => hdot (hcontra ▸ List.mem_cons_self _ _)
    have hdot' : '.' ∉ qs := fun hmem => hdot (List.mem_cons_of_mem _ hmem)
    cases text with
    | nil =>
      constructor
      · intro h
        exact absurd h (by rw [matchChars]; simp)
      · rintro ⟨p, hsplit, hci⟩
        cases p with
        | nil => exact absurd hci (by simp [ciEqB])
        | cons b bs => exact absurd hsplit (by simp)
    | cons c cs =>
      rw [matchChars]
      have hpat : charPatMatch q c = decide (q.toLower = c.toLower) := by
        unfold charPatMatch
        rw [if_neg hq]
      by_cases hm : q.toLower = c.toLower
      · rw [hpat, if_pos (by simp [hm])]
        rw [ih hdot' cs t]
        constructor
        · rintro ⟨p, hsplit, hci⟩
          refine ⟨c :: p, by rw [hsplit]; rfl, ?_⟩
          show (decide (q.toLower = c.toLower) && ciEqB qs p) = true
          simp [hm, hci]
        · rintro ⟨p, hsplit, hci⟩
          cases p with
          | nil => exact absurd hci (by simp [ciEqB])
          | cons b bs =>
            have hc : c = b := by
              have := congrArg (fun l => List.head? l) hsplit
              simpa using this
            have hcs : cs = bs ++ t := by
              have := congrArg (fun l => List.tail l) hsplit
              simpa using this
            have hci' : ciEqB qs bs = true := by
              have : (decide (q.toLower = b.toLower) && ciEqB qs bs) = true :=
                hci
              exact (bandE this).2
            exact ⟨bs, hcs, hci'⟩
      · rw [hpat, if_neg (by simp [hm])]
        constructor
        · intro h
          exact absurd h (by simp)
        · rintro ⟨p, hsplit, hci⟩
          cases p with
          | nil => exact absurd hci (by simp [ciEqB])
          | cons b bs =>
            have hc : c = b := by
              have := congrArg (fun l => List.head? l) hsplit
              simpa using this
            have : (decide (q.toLower = b.toLower) && ciEqB qs bs) = true :=
              hci
            rcases bandE this with ⟨h1, _⟩
            rw [← hc] at h1
            exact absurd (by simpa using h1) hm

theorem matchOneSeg_true_iff (seg : List Char) (hdot : '.' ∉ seg)
    (k : List Char → Bool) (hk : ∀ t, k t = true) :
    ∀ text, (matchOneSeg seg k text = true ↔
      ∃ g s r, text = g ++ s ++ r ∧ (∀ c ∈ g, c ≠ '\n') ∧
        ciEqB seg s = true) := by
  intro text
  induction text with
  | nil =>
    rw [matchOneSeg]
    constructor
    · intro h
      cases hmc : matchChars seg [] with
      | none => rw [hmc] at h; exact absurd h (by simp)
      | some t =>
        rcases (matchChars_eq_some_iff seg hdot [] t).mp hmc with
          ⟨p, hsplit, hci⟩
        rcases List.append_eq_nil.mp hsplit.symm with ⟨hp, ht⟩
        subst hp
        exact ⟨[], [], [], rfl, by simp, hci⟩
    · rintro ⟨g, s, r, hsplit, hg, hci⟩
      rcases List.append_eq_nil.mp hsplit.symm with ⟨hgs, hr⟩
      rcases List.append_eq_nil.mp hgs with ⟨hgn, hs⟩
      subst hs
      have hmc : matchChars seg [] = some [] :=
        (matchChars_eq_some_iff seg hdot [] []).mpr ⟨[], rfl, hci⟩
      rw [hmc]
      exact hk []
  | cons c cs ih =>
    rw [matchOneSeg]
    constructor
    · intro h
      rcases borE h with h1 | h2
      · cases hmc : matchChars seg (c :: cs) with
        | none => rw [hmc] at h1; exact absurd h1 (by simp)
        | some t =>
          rcases (matchChars_eq_some_iff seg hdot (c :: cs) t).mp hmc with
            ⟨p, hsplit, hci⟩
          exact ⟨[], p, t, by rw [hsplit]; rfl, by simp, hci⟩
      · rcases bandE h2 with ⟨hc, hrec⟩
        rcases ih.mp hrec with ⟨g, s, r, hsplit, hg, hci⟩
        refine ⟨c :: g, s, r, by rw [hsplit]; rfl, ?_, hci⟩
        intro x hx
        rcases List.mem_cons.mp hx with rfl | hx
        · simpa using hc
        · exact hg x hx
    · rintro ⟨g, s, r, hsplit, hg, hci⟩
      cases g with
      | nil =>
        have hmc : matchChars seg (c :: cs) = some r := by
          refine (matchChars_eq_some_iff seg hdot (c :: cs) r).mpr ⟨s, ?_, hci⟩
          rw [hsplit]
          rfl
        rw [hmc]
        simp [hk]
      | cons c' g' =>
        have hc : c = c' := by
          have := congrArg (fun l => List.head? l) hsplit
          simpa using this
        have hcs : cs = g' ++ s ++ r := by
          have := congrArg (fun l => List.tail l) hsplit
          simpa using this
        have hrec : matchOneSeg seg k cs = true :=
          ih.mpr ⟨g', s, r, hcs, fun x hx => hg x (List.mem_cons_of_mem _ hx),
            hci⟩
        have hcne : c ≠ '\n' := hc ▸ hg c' (List.mem_cons_self _ _)
        rw [Bool.or_eq_true]
        right
        rw [Bool.and_eq_true]
        exact ⟨by simpa using hcne, hrec⟩

theorem splitOnChar_not_mem (sep : Char) :
    ∀ l : List Char, sep ∉ l → splitOnChar sep l = [l] := by
  intro l
  induction l with
  | nil => intro _; rfl
  | cons c cs ih =>
    intro h
    have hc : c ≠ sep := fun hcontra => h (hcontra ▸ List.mem_cons_self _ _)
    have hcs : sep ∉ cs := fun hmem => h (List.mem_cons_of_mem _ hmem)
    rw [splitOnChar]
    simp only [if_neg hc, ih hcs]

theorem splitOnChar_append (sep : Char) :
    ∀ (pre rest : List Char), sep ∉ pre →
      splitOnChar sep (pre ++ sep :: rest) = pre :: splitOnChar sep rest := by
  intro pre rest
  induction pre with
  | nil =>
    intro _
    show splitOnChar sep (sep :: rest) = _
    rw [splitOnChar]
    simp
  | cons c cs ih =>
    intro h
    have hc : c ≠ sep := fun hcontra => h (hcontra ▸ List.mem_cons_self _ _)
    have hcs : sep ∉ cs := fun hmem => h (List.mem_cons_of_mem _ hmem)
    show splitOnChar sep (c :: (cs ++ sep :: rest)) = _
    rw [splitOnChar]
    simp only [if_neg hc, ih hcs]

theorem wildcardSearch_pair_iff (pre post : List Char)
    (hdp : '.' ∉ pre) (hdq : '.' ∉ post)
    (hsp : '*' ∉ pre) (hsq : '*' ∉ post) (cand : List Char) :
    wildcardSearch (pre ++ '*' :: post) cand = true ↔
      amendedWildcardReading pre post cand := by
  unfold wildcardSearch
  rw [splitOnChar_append '*' pre post hsp, splitOnChar_not_mem '*' post hsq]
  show (match matchChars pre cand with
    | some t => matchSegsFrom [post] t
    | none => false) = true ↔ amendedWildcardReading pre post cand
  constructor
  · intro h
    cases hmc : matchChars pre cand with
    | none => rw [hmc] at h; exact absurd h (by simp)
    | some t =>
      rw [hmc] at h
      have hone : matchOneSeg post (matchSegsFrom []) t = true := h
      rcases (matchOneSeg_true_iff post hdq (matchSegsFrom [])
          (fun _ => rfl) t).mp hone with ⟨g, s, r, hsplit, hg, hci⟩
      rcases (matchChars_eq_some_iff pre hdp cand t).mp hmc with
        ⟨p, hc, hcip⟩
      refine ⟨p, g, s, r, ?_, hcip, hg, hci⟩
      rw [hc, hsplit]
      simp [List.append_assoc]
  · rintro ⟨p, g, s, r, hsplit, hcip, hg, hci⟩
    have hmc : matchChars pre cand = some (g ++ s ++ r) := by
      refine (matchChars_eq_some_iff pre hdp cand _).mpr ⟨p, ?_, hcip⟩
      rw [hsplit]
      simp [List.append_assoc]
    rw [hmc]
    exact (matchOneSeg_true_iff post hdq (matchSegsFrom [])
      (fun _ => rfl) _).mpr ⟨g, s, r, rfl, hg, hci⟩

theorem startsWithChars_iff :
    ∀ (needle hay : List Char),
      (startsWithChars needle hay = true ↔ ∃ r, hay = needle ++ r) := by
  intro needle
  induction needle with
  | nil => intro hay; simp [startsWithChars]
  | cons p ps ih =>
    intro hay
    cases hay with
    | nil =>
      constructor
      · intro h; exact absurd h (by simp [startsWithChars])
      · rintro ⟨r, hr⟩; exact absurd hr (by simp)
    | cons c cs =>
      rw [startsWithChars]
      constructor
      · intro h
        rcases bandE h with ⟨h1, h2⟩
        rcases (ih cs).mp h2 with ⟨r, hr⟩
        refine ⟨r, ?_⟩
        rw [hr]
        have : p = c := by simpa using h1
        rw [this]
        rfl
      · rintro ⟨r, hr⟩
        have hc : p = c := by
          have := congrArg (fun l => List.head? l) hr
          simpa using this.symm
        have hcs : cs = ps ++ r := by
          have := congrArg (fun l => List.tail l) hr
          simpa using this
        rw [Bool.and_eq_true]
        exact ⟨by simpa using hc, (ih cs).mpr ⟨r, hcs⟩⟩

theorem containsSub_iff (needle : List Char) :
    ∀ hay, (containsSub needle hay = true ↔
      ∃ p r, hay = p ++ needle ++ r) := by
  intro hay
  induction hay with
  | nil =>
    rw [containsSub]
    constructor
    · intro h
      have hn : needle = [] := by
        cases needle with
        | nil => rfl
        | cons a as => exact absurd h (by simp [List.isEmpty])
      exact ⟨[], [], by rw [hn]; rfl⟩
    · rintro ⟨p, r, hsplit⟩
      rcases List.append_eq_nil.mp hsplit.symm with ⟨hpn, hr⟩
      rcases List.append_eq_nil.mp hpn with ⟨hp, hn⟩
      rw [hn]
      rfl
  | cons c cs ih =>
    rw [containsSub]
    constructor
    · intro h
      rcases borE h with h1 | h2
      · rcases (startsWithChars_iff needle (c :: cs)).mp h1 with ⟨r, hr⟩
        exact ⟨[], r, by rw [hr]; rfl⟩
      · rcases ih.mp h2 with ⟨p, r, hr⟩
        exact ⟨c :: p, r, by rw [hr]; rfl⟩
    · rintro ⟨p, r, hsplit⟩
      cases p with
      | nil =>
        rw [Bool.or_eq_true]
        left
        refine (startsWithChars_iff needle (c :: cs)).mpr ⟨r, ?_⟩
        rw [hsplit]
        rfl
      | cons c' p' =>
        have hc : c = c' := by
          have := congrArg (fun l => List.head? l) hsplit
          simpa using this
        have hcs : cs = p' ++ needle ++ r := by
          have := congrArg (fun l => List.tail l) hsplit
          simpa using this
        rw [Bool.or_eq_true]
        right
        exact ih.mpr ⟨p', r, hcs⟩

theorem regexPlain_not_dot {l : List Char}
    (h : l.all regexPlainChar = true) : '.' ∉ l := fun hmem =>
  absurd (List.all_eq_true.mp h '.' hmem) (by decide)

theorem regexPlain_not_star {l : List Char}
    (h : l.all regexPlainChar = true) : '*' ∉ l := fun hmem =>
  absurd (List.all_eq_true.mp h '*' hmem) (by decide)

/-- The keyword test for a single-`'*'` keyword of regex-plain characters,
against any candidate (`match_filename` and `match_folder` share it). -/
theorem keywordMatchesText_wildcard_iff (pre post cand : List Char)
    (hp : pre.all regexPlainChar = true)
    (hq : post.all regexPlainChar = true) :
    (keywordMatchesText (pre ++ '*' :: post) cand = true ↔
      amendedWildcardReading pre post cand) := by
  unfold keywordMatchesText
  rw [if_pos (List.elem_iff.mpr
    (List.mem_append_right _ (List.mem_cons_self _ _)))]
  exact wildcardSearch_pair_iff pre post (regexPlain_not_dot hp)
    (regexPlain_not_dot hq) (regexPlain_not_star hp)
    (regexPlain_not_star hq) cand

/-- The keyword test for a star-free keyword: a case-insensitive substring
check, against any candidate. -/
theorem keywordMatchesText_plain_iff (kw cand : List Char)
    (hstar : '*' ∉ kw) :
    (keywordMatchesText kw cand = true ↔
      ∃ p r, cand = p ++ lowerChars kw ++ r) := by
  unfold keywordMatchesText
  have hcont : kw.contains '*' = false := by
    cases hc : kw.contains '*' with
    | false => rfl
    | true => exact absurd (List.elem_iff.mp hc) hstar
  rw [if_neg (by rw [hcont]; simp)]
  exact containsSub_iff (lowerChars kw) cand

/-- Every date filter constructed by `extract_dates` has its `year` field
set: all three categories build the filter with `year := some _`. -/
theorem extract_dates_year_isSome (prompt : String) (df : DateFilter)
    (h : df ∈ extract_dates prompt) : df.year.isSome = true := by
  simp only [extract_dates] at h
  by_cases he : (monthYearFilters (lowerChars prompt.data) ++
      yyyymmFilters (lowerChars prompt.data)).isEmpty
  · rw [if_pos he] at h
    unfold bareYearFilters at h
    rcases List.mem_filterMap.mp h with ⟨y, _, hy⟩
    by_cases hc : (2000 ≤ y && y ≤ 2100) = true
    · rw [if_pos hc] at hy
      injection hy with hy
      subst hy
      rfl
    · rw [if_neg hc] at hy
      exact absurd hy (by simp)
  · rw [if_neg he] at h
    rcases List.mem_append.mp h with h | h
    · unfold monthYearFilters at h
      rcases List.mem_map.mp h with ⟨ym, _, rfl⟩
      rfl
    · unfold yyyymmFilters at h
      rcases List.mem_filterMap.mp h with ⟨ym, _, hy⟩
      by_cases hc : (1 ≤ ym.2 && ym.2 ≤ 12) = true
      · rw [if_pos hc] at hy
        injection hy with hy
        subst hy
        rfl
      · rw [if_neg hc] at hy
        exact absurd hy (by simp)

/-- Every spec produced by `parse` carries `(extract_dates prompt).head?`
as its date filter. -/
theorem parse_date_filter_eq_head (prompt : String) (spec : AlbumSpec)
    (hmem : spec ∈ PromptParser.parse prompt) :
    spec.date_filter = (extract_dates prompt).head? := by
  simp only [PromptParser.parse] at hmem
  rcases List.mem_map.mp hmem with ⟨name, _, rfl⟩
  rfl

/-! ### Matcher claims -/

/-- C1.  Partition totality: every run of `PatternMatcher.match` distributes
the input photos across the album buckets and the unmatched list without
loss or duplication — the concatenation of all buckets with the unmatched
list is a permutation of the input, and the bucket counts (`match_stats`)
plus the unmatched count add up to the number of input photos. -/
theorem C1_partition_totality (specs : List AlbumSpec)
    (photos : List PhotoMetadata) :
    (bucketsJoin (matchPhotos specs photos).matched ++
      (matchPhotos specs photos).unmatched).Perm photos ∧
    ((matchPhotos specs photos).match_stats.map fun e => e.2).sum +
      (matchPhotos specs photos).unmatched.length = photos.length := by
  have hsub : ∀ n ∈ specs.map (fun s => s.name),
      n ∈ (initBuckets specs).map fun e => e.1 := by
    intro n hn
    rw [initBuckets_keys]
    exact (mem_dedupKeys _ _).mpr hn
  have hperm := foldl_matchStep_perm specs photos (initBuckets specs, []) hsub
  rw [initBuckets_join] at hperm
  simp only [List.append_nil] at hperm
  have hmain : (bucketsJoin (matchPhotos specs photos).matched ++
      (matchPhotos specs photos).unmatched).Perm photos := hperm
  refine ⟨hmain, ?_⟩
  have hlen := hmain.length_eq
  rw [List.length_append] at hlen
  have hstats : ((matchPhotos specs photos).match_stats.map fun e => e.2) =
      ((matchPhotos specs photos).matched.map fun e => e.2).map
        List.length := by
    show (((matchPhotos specs photos).matched.map fun p =>
      (p.1, p.2.length)).map fun e => e.2) = _
    rw [List.map_map, List.map_map]
    rfl
  rw [hstats, ← List.length_flatten]
  exact hlen

/-- C2.  Date-keyword precedence: when a spec carries a date filter,
`_matches_spec` is decided by the keyword match alone — the date comparison
never changes the outcome in either direction. -/
theorem C2_date_keyword_precedence (photo : PhotoMetadata) (spec : AlbumSpec)
    (f : DateFilter) (h : spec.date_filter = some f) :
    matches_spec photo spec =
      (match_filename photo spec.keywords ||
        match_folder photo spec.keywords) := by
  simp only [matches_spec, h]
  cases hk : match_filename photo spec.keywords ||
      match_folder photo spec.keywords with
  | true => simp [hk]
  | false => simp [hk]

/-- Witness for C2: a photo named `vacation.jpg` dated 2023 against a
spec with keyword `vacation` and a year-2024 date filter still matches. -/
theorem C2_witness :
    matches_spec ⟨"p", "vacation.jpg", "f", none, none,
        some ⟨2023, 6, 1⟩, none, 0⟩
      ⟨"Vacation", ["vacation"], some ⟨some 2024, none, none, none⟩, ""⟩ =
      true := by
  rw [C2_date_keyword_precedence _ _ ⟨some 2024, none, none, none⟩ rfl]
  decide

/-- Counterexample to C3 as stated: with specs at positions 0 and 1 both
matched by the photo, the claim says the photo lands in the bucket of the
spec at position 0; but that spec's name is the empty string, so the
`if matched_album:` truthiness gate sends the photo to `unmatched` and the
position-0 bucket stays empty. -/
theorem C3_counterexample :
    matches_spec ⟨"p", "a.jpg", "f", none, none, none, none, 0⟩
      ⟨"", ["a"], none, ""⟩ = true ∧
    matches_spec ⟨"p", "a.jpg", "f", none, none, none, none, 0⟩
      ⟨"B", ["a"], none, ""⟩ = true ∧
    bucketContents
      (matchPhotos [⟨"", ["a"], none, ""⟩, ⟨"B", ["a"], none, ""⟩]
        [⟨"p", "a.jpg", "f", none, none, none, none, 0⟩]) "" = [] ∧
    (matchPhotos [⟨"", ["a"], none, ""⟩, ⟨"B", ["a"], none, ""⟩]
        [⟨"p", "a.jpg", "f", none, none, none, none, 0⟩]).unmatched =
      [⟨"p", "a.jpg", "f", none, none, none, none, 0⟩] := by
  refine ⟨by decide, by decide, by decide, by decide⟩

/-- C3 (amended).  First-match priority with the truthy-name gate: if a
photo matches the specs at positions `i < j`, the matcher selects the least
matching position `k ≤ i` (never `j`); the photo is placed in the bucket of
that spec's name when the name is nonempty, and in `unmatched` when the name
is empty; a photo matching no spec goes to `unmatched`. -/
theorem C3_first_match_priority (specs : List AlbumSpec)
    (photos : List PhotoMetadata) (photo : PhotoMetadata)
    (hmem : photo ∈ photos) :
    (∀ i j (hi : i < specs.length) (hj : j < specs.length), i < j →
      matches_spec photo (specs.get ⟨i, hi⟩) = true →
      matches_spec photo (specs.get ⟨j, hj⟩) = true →
      ∃ k, ∃ hk : k < specs.length, k ≤ i ∧
        matches_spec photo (specs.get ⟨k, hk⟩) = true ∧
        (∀ m (hm : m < specs.length), m < k →
          matches_spec photo (specs.get ⟨m, hm⟩) = false) ∧
        matchedAlbumFor specs photo = some (specs.get ⟨k, hk⟩).name ∧
        ((specs.get ⟨k, hk⟩).name ≠ "" →
          photo ∈ bucketContents (matchPhotos specs photos)
            (specs.get ⟨k, hk⟩).name) ∧
        ((specs.get ⟨k, hk⟩).name = "" →
          photo ∈ (matchPhotos specs photos).unmatched)) ∧
    ((∀ s ∈ specs, matches_spec photo s = false) →
      photo ∈ (matchPhotos specs photos).unmatched) := by
  constructor
  · intro i j hi hj hij hpi hpj
    rcases find?_least (fun s => matches_spec photo s) specs i hi hpi with
      ⟨k, hk, hki, hpk, hmin, hfind⟩
    have halbum : matchedAlbumFor specs photo =
        some (specs.get ⟨k, hk⟩).name := by
      unfold matchedAlbumFor
      rw [hfind]
      rfl
    refine ⟨k, hk, hki, hpk, hmin, halbum, ?_, ?_⟩
    · intro hne
      have hgetmem : specs.get ⟨k, hk⟩ ∈ specs :=
        List.mem_iff_get.mpr ⟨⟨k, hk⟩, rfl⟩
      rw [bucketContents_matchPhotos specs photos _
        (List.mem_map_of_mem (fun s => s.name) hgetmem)]
      refine List.mem_filter.mpr ⟨hmem, ?_⟩
      unfold bucketPred
      rw [halbum]
      simp only [Bool.and_eq_true, decide_eq_true_eq]
      exact ⟨trivial, hne⟩
    · intro hemp
      rw [matchPhotos_unmatched_eq]
      refine List.mem_filter.mpr ⟨hmem, ?_⟩
      rw [halbum, hemp]
      rfl
  · intro hnone
    rw [matchPhotos_unmatched_eq]
    refine List.mem_filter.mpr ⟨hmem, ?_⟩
    have hfind : specs.find? (fun s => matches_spec photo s) = none := by
      rw [List.find?_eq_none]
      intro s hs
      rw [hnone s hs]
      simp
    unfold matchedAlbumFor
    rw [hfind]
    rfl

/-- Witness for C3 (amended): two overlapping specs `Fest` and
`College Fest`; a photo matching both goes to the bucket of the first. -/
theorem C3_witness :
    (⟨"p", "college_fest_1.jpg", "f", none, none, none, none, 0⟩ :
        PhotoMetadata) ∈
      bucketContents
        (matchPhotos
          [⟨"Fest", ["fest"], none, ""⟩,
            ⟨"College Fest", ["college fest", "college", "fest"], none, ""⟩]
          [⟨"p", "college_fest_1.jpg", "f", none, none, none, none, 0⟩])
        "Fest" := by
  have hlen0 : 0 < ([⟨"Fest", ["fest"], none, ""⟩,
      ⟨"College Fest", ["college fest", "college", "fest"], none, ""⟩] :
        List AlbumSpec).length := by decide
  have hlen1 : 1 < ([⟨"Fest", ["fest"], none, ""⟩,
      ⟨"College Fest", ["college fest", "college", "fest"], none, ""⟩] :
        List AlbumSpec).length := by decide
  rcases (C3_first_match_priority
      [⟨"Fest", ["fest"], none, ""⟩,
        ⟨"College Fest", ["college fest", "college", "fest"], none, ""⟩]
      [⟨"p", "college_fest_1.jpg", "f", none, none, none, none, 0⟩]
      ⟨"p", "college_fest_1.jpg", "f", none, none, none, none, 0⟩
      (by decide)).1 0 1 hlen0 hlen1 (by decide)
      (show matches_spec
        ⟨"p", "college_fest_1.jpg", "f", none, none, none, none, 0⟩
        ⟨"Fest", ["fest"], none, ""⟩ = true by decide)
      (show matches_spec
        ⟨"p", "college_fest_1.jpg", "f", none, none, none, none, 0⟩
        ⟨"College Fest", ["college fest", "college", "fest"], none, ""⟩ =
          true by decide) with
    ⟨k, hk, hki, hpk, hmin, halbum, hbucket, hunm⟩
  have hk0 : k = 0 := Nat.le_zero.mp hki
  subst hk0
  exact hbucket (show ("Fest" : String) ≠ "" by decide)

/-- C8.  Missing-date handling: a photo with no preferred date (no EXIF
date and no file-created time) fails `match_date` for every date filter;
the matcher signals this by a `false` comparison, never an error (the
embedding is total). -/
theorem C8_missing_date (photo : PhotoMetadata) (f : DateFilter)
    (h : photoDate photo = none) : match_date photo f = false := by
  unfold match_date
  rw [h]

/-- Witness for C8: a concrete dateless photo against a year filter. -/
theorem C8_witness :
    match_date ⟨"p", "a.jpg", "f", none, none, none, none, 0⟩
      ⟨some 2024, some 3, none, none⟩ = false :=
  C8_missing_date ⟨"p", "a.jpg", "f", none, none, none, none, 0⟩
    ⟨some 2024, some 3, none, none⟩ rfl

/-- C10.  Empty-name gate: when the first matching spec is named `""`, the
`if matched_album:` truthiness test fails, so the photo goes to `unmatched`
and into no bucket. -/
theorem C10_empty_name_unmatched (specs : List AlbumSpec)
    (photos : List PhotoMetadata) (photo : PhotoMetadata) (s0 : AlbumSpec)
    (hmem : photo ∈ photos)
    (hfind : specs.find? (fun s => matches_spec photo s) = some s0)
    (hname : s0.name = "") :
    photo ∈ (matchPhotos specs photos).unmatched ∧
      ∀ e ∈ (matchPhotos specs photos).matched, photo ∉ e.2 := by
  have halbum : matchedAlbumFor specs photo = some "" := by
    unfold matchedAlbumFor
    rw [hfind]
    simp [hname]
  constructor
  · rw [matchPhotos_unmatched_eq]
    refine List.mem_filter.mpr ⟨hmem, ?_⟩
    rw [halbum]
    rfl
  · intro e he hp
    have hpred := bucketPred_of_mem_bucket specs photos e he photo hp
    unfold bucketPred at hpred
    rw [halbum] at hpred
    simp only [Bool.and_eq_true, decide_eq_true_eq, Option.some.injEq] at hpred
    exact hpred.2 hpred.1.symm

/-- Witness for C10: a single spec named `""` whose keyword matches the
photo; the photo is unmatched and in no bucket. -/
theorem C10_witness :
    (⟨"p", "a.jpg", "f", none, none, none, none, 0⟩ : PhotoMetadata) ∈
      (matchPhotos [⟨"", ["a"], none, ""⟩]
        [⟨"p", "a.jpg", "f", none, none, none, none, 0⟩]).unmatched ∧
    ∀ e ∈ (matchPhotos [⟨"", ["a"], none, ""⟩]
        [⟨"p", "a.jpg", "f", none, none, none, none, 0⟩]).matched,
      (⟨"p", "a.jpg", "f", none, none, none, none, 0⟩ : PhotoMetadata) ∉
        e.2 :=
  C10_empty_name_unmatched [⟨"", ["a"], none, ""⟩]
    [⟨"p", "a.jpg", "f", none, none, none, none, 0⟩]
    ⟨"p", "a.jpg", "f", none, none, none, none, 0⟩
    ⟨"", ["a"], none, ""⟩ (by decide) (by decide) rfl

/-! ### Parser claims -/

/-- C5.  Date extraction precedence: categories (a) month-name/year and
(b) `YYYY-MM` are always combined; bare 4-digit years (category (c),
filtered to 2000..2100 inside `bareYearFilters`) contribute only when (a)
and (b) together produced nothing.  The spec's example prompt yields
exactly one filter, `DateFilter(year=2024, month=3)` — the bare year 2023
is suppressed. -/
theorem C5_date_extraction_precedence :
    (∀ prompt : String,
      (monthYearFilters (lowerChars prompt.data) ++
          yyyymmFilters (lowerChars prompt.data) ≠ [] →
        extract_dates prompt =
          monthYearFilters (lowerChars prompt.data) ++
            yyyymmFilters (lowerChars prompt.data)) ∧
      (monthYearFilters (lowerChars prompt.data) ++
          yyyymmFilters (lowerChars prompt.data) = [] →
        extract_dates prompt = bareYearFilters (lowerChars prompt.data))) ∧
    extract_dates "Photos from March 2024 and also 2023" =
      [⟨some 2024, some 3, none, none⟩] := by
  constructor
  · intro prompt
    constructor
    · intro hne
      simp only [extract_dates]
      rw [if_neg fun hcontra => hne (List.isEmpty_iff.mp hcontra)]
    · intro he
      simp only [extract_dates]
      rw [if_pos (List.isEmpty_iff.mpr he)]
  · decide

/-- Witness for C5: a prompt where category (a) fires, so `extract_dates`
returns the combined (a)/(b) lists. -/
theorem C5_witness :
    extract_dates "March 2024" =
      monthYearFilters (lowerChars "March 2024".data) ++
        yyyymmFilters (lowerChars "March 2024".data) :=
  (C5_date_extraction_precedence.1 "March 2024").1 (by decide)

/-- C6.  Uniform first-date attachment: `parse` attaches
`(extract_dates prompt).head?` — the first extracted date filter, or
nothing — to every produced spec, and the spec's example yields exactly 2
specs, both carrying `DateFilter(year=2024, month=3)`. -/
theorem C6_uniform_first_date :
    (∀ prompt : String, ∀ spec ∈ PromptParser.parse prompt,
      spec.date_filter = (extract_dates prompt).head?) ∧
    (PromptParser.parse
      "Sort by NCC events, college fests in March 2024").length = 2 ∧
    ∀ spec ∈ PromptParser.parse
        "Sort by NCC events, college fests in March 2024",
      spec.date_filter = some ⟨some 2024, some 3, none, none⟩ := by
  refine ⟨fun prompt spec hmem =>
    parse_date_filter_eq_head prompt spec hmem, by decide, by decide⟩

/-- Witness for C6: a concrete spec of a concrete prompt carries the head
of the extracted dates. -/
theorem C6_witness :
    (⟨"X", ["x"], some ⟨some 2024, none, none, none⟩, "x 2024"⟩ :
        AlbumSpec).date_filter = (extract_dates "x 2024").head? :=
  C6_uniform_first_date.1 "x 2024"
    ⟨"X", ["x"], some ⟨some 2024, none, none, none⟩, "x 2024"⟩ (by decide)

/-- C7 (code bug).  The claim's positive case holds — a prompt carrying
only a month-year token parses to no specs — but a prompt that is a single
standalone `YYYY-MM` date token contradicts the claim: the year-stripping
pass `\b\d{4}\b` (matcher.py line 120) runs before the `YYYY-MM` pass
(line 123) and destroys the token, leaving the residue `-03`, which
survives as an album name, so `parse "2024-03"` is nonempty.  This defeats
the stated purpose of the date-stripping passes ("Remove date expressions
to avoid confusion").  No exception is possible (the embedding is total,
as is the Python code on strings). -/
theorem C7_unparseable_prompt_eval :
    PromptParser.parse "March 2024" = [] ∧
    extract_album_names "2024-03" = ["-03"] ∧
    PromptParser.parse "2024-03" =
      [⟨"-03", ["-03"], some ⟨some 2024, some 3, none, none⟩,
        "2024-03"⟩] := by
  refine ⟨by decide, by decide, by decide⟩

/-- C9.  Non-vacuous DateFilter invariant: every date filter a parsed spec
carries has its `year` field set, so the all-fields-unset filter is never
attached by the parser. -/
theorem C9_datefilter_year_set (prompt : String) (spec : AlbumSpec)
    (hmem : spec ∈ PromptParser.parse prompt) (df : DateFilter)
    (hdf : spec.date_filter = some df) :
    df.year.isSome = true ∧ df ≠ ⟨none, none, none, none⟩ := by
  rw [parse_date_filter_eq_head prompt spec hmem] at hdf
  have hmem' : df ∈ extract_dates prompt := by
    cases hex : extract_dates prompt with
    | nil => rw [hex] at hdf; exact absurd hdf (by simp)
    | cons d rest =>
      rw [hex] at hdf
      simp only [List.head?_cons, Option.some.injEq] at hdf
      subst hdf
      exact List.mem_cons_self _ _
  have hy := extract_dates_year_isSome prompt df hmem'
  refine ⟨hy, fun hcontra => ?_⟩
  rw [hcontra] at hy
  exact absurd hy (by simp)

/-- Witness for C9: the spec parsed from `"x 2024"` carries a filter whose
`year` is set. -/
theorem C9_witness :
    ((⟨some 2024, none, none, none⟩ : DateFilter).year.isSome = true) ∧
      (⟨some 2024, none, none, none⟩ : DateFilter) ≠
        ⟨none, none, none, none⟩ :=
  C9_datefilter_year_set "x 2024"
    ⟨"X", ["x"], some ⟨some 2024, none, none, none⟩, "x 2024"⟩
    (by decide) ⟨some 2024, none, none, none⟩ rfl

/-- Counterexample to C4 as stated: the compiled pattern for `'*'` is
`.*`, and Python's `.` does not match a newline, so the keyword `a*b` does
NOT match the candidate `"a\nb"` even though the candidate starts with
`a`, followed by zero or more characters, then `b` — the claim's
unrestricted "zero or more characters" reading says it should match. -/
theorem C4_wildcard_counterexample :
    match_filename ⟨"p", "a\nb", "f", none, none, none, none, 0⟩ ["a*b"] =
      false ∧
    specWildcardReading "a".data "b".data (lowerChars ("a\nb".data)) := by
  refine ⟨by decide,
    ⟨"a".data, ['\n'], "b".data, [], by decide, by decide, by decide⟩⟩

/-- C4 (amended).  Wildcard keyword semantics: for a keyword with a single
`'*'` whose other characters carry no special regex meaning (none of
`. ^ $ + ? | ( )`, brackets, braces or backslash — `regexPlainChar`), the
keyword matches a candidate (the filename in `match_filename`, the folder
name in `match_folder`) iff the case-normalized candidate starts with the
prefix before `'*'`, followed by zero or more characters *other than
newline*, then the part after `'*'` (anchored at the start, trailing text
free); a keyword without `'*'` matches iff it is a case-insensitive
substring of the candidate; `"NCC*"` matches `"NCC_parade_001.jpg"` and
not `"my_NCC_photo.jpg"`. -/
theorem C4_wildcard_keyword_semantics :
    (∀ (pre post : List Char) (photo : PhotoMetadata),
      pre.all regexPlainChar = true → post.all regexPlainChar = true →
      ((match_filename photo [String.mk (pre ++ '*' :: post)] = true ↔
        amendedWildcardReading pre post
          (lowerChars photo.filename.data)) ∧
       (match_folder photo [String.mk (pre ++ '*' :: post)] = true ↔
        amendedWildcardReading pre post
          (lowerChars photo.folder_name.data)))) ∧
    (∀ (kw : String) (photo : PhotoMetadata), '*' ∉ kw.data →
      ((match_filename photo [kw] = true ↔
        ∃ p r, lowerChars photo.filename.data =
          p ++ lowerChars kw.data ++ r) ∧
       (match_folder photo [kw] = true ↔
        ∃ p r, lowerChars photo.folder_name.data =
          p ++ lowerChars kw.data ++ r))) ∧
    match_filename ⟨"p", "NCC_parade_001.jpg", "f", none, none, none,
      none, 0⟩ ["NCC*"] = true ∧
    match_filename ⟨"p", "my_NCC_photo.jpg", "f", none, none, none,
      none, 0⟩ ["NCC*"] = false := by
  refine ⟨?_, ?_, by decide, by decide⟩
  · intro pre post photo hp hq
    constructor
    · have h1 : match_filename photo [String.mk (pre ++ '*' :: post)] =
          (keywordMatchesText (pre ++ '*' :: post)
            (lowerChars photo.filename.data) || false) := rfl
      rw [h1, Bool.or_false]
      exact keywordMatchesText_wildcard_iff pre post _ hp hq
    · have h1 : match_folder photo [String.mk (pre ++ '*' :: post)] =
          (keywordMatchesText (pre ++ '*' :: post)
            (lowerChars photo.folder_name.data) || false) := rfl
      rw [h1, Bool.or_false]
      exact keywordMatchesText_wildcard_iff pre post _ hp hq
  · intro kw photo hstar
    constructor
    · have h1 : match_filename photo [kw] =
          (keywordMatchesText kw.data (lowerChars photo.filename.data) ||
            false) := rfl
      rw [h1, Bool.or_false]
      exact keywordMatchesText_plain_iff kw.data _ hstar
    · have h1 : match_folder photo [kw] =
          (keywordMatchesText kw.data
            (lowerChars photo.folder_name.data) || false) := rfl
      rw [h1, Bool.or_false]
      exact keywordMatchesText_plain_iff kw.data _ hstar

/-- Witness for C4 (amended): the wildcard keyword `vac*` matches the
filename `VACation.jpg` case-insensitively. -/
theorem C4_witness :
    match_filename ⟨"p", "VACation.jpg", "f", none, none, none, none, 0⟩
      [String.mk ("vac".data ++ '*' :: "".data)] = true :=
  ((C4_wildcard_keyword_semantics.1 "vac".data "".data
    ⟨"p", "VACation.jpg", "f", none, none, none, none, 0⟩
    (by decide) (by decide)).1).mpr
    ⟨"vac".data, [], [], "ation.jpg".data, by decide, by decide,
      by simp, by decide⟩

end LazyLens
